import Mathlib

/-!
# Verification of the execution-context tree builder (`src/exec/context.rs`)

This file is a shallow embedding of the incremental layout-tree builder:
the `ExecContext` orchestrator, the `PageBuilder`, `StackBuilder` and
`ParBuilder`, and the `Last` spacing-coalescing automaton, translated from
the Rust source.  Machine floats used for lengths in the source are
modelled by `Int` (the claims under study never depend on numeric
representation, only on which nodes materialize).  External value types
(state, geometry, scanner) that live outside the provided source are
modelled from the specification; their definitions say so in their doc
comments.
-/

set_option maxRecDepth 4000

namespace Typst

/-- Writing directions (`geom::Dir`), an opaque external value type. -/
inductive Dir where
  | ltr
  | rtl
  | ttb
  | btt
deriving DecidableEq, Repr

/-- Alignments (`geom::Align`: `Start`, `Center`, `End`), an opaque
external value type; `End` is rendered `stop` here. -/
inductive Align where
  | start
  | center
  | stop
deriving DecidableEq, Repr

/-- A pair of a main-axis and a cross-axis component (`geom::Gen`). -/
structure Gen (α : Type) where
  main : α
  cross : α
deriving DecidableEq, Repr

/-- The two generic axes (`geom::GenAxis`). -/
inductive GenAxis where
  | main
  | cross
deriving DecidableEq, Repr

/-- Lengths (`geom::Length`); the source uses a float, modelled by `Int`. -/
abbrev Length := Int

/-- A linear expression `rel · em + abs` (`geom::Linear`); the relative
part of the source is a float ratio, modelled by an `Int` coefficient. -/
structure Linear where
  rel : Int
  abs : Int
deriving DecidableEq, Repr

/-- Resolve a linear expression against a font size (`Linear::resolve`). -/
def Linear.resolve (l : Linear) (em : Length) : Length :=
  l.rel * em + l.abs

/-- A size (`geom::Size`). -/
structure Size where
  width : Length
  height : Length
deriving DecidableEq, Repr

/-- Four sides of a rectangle (`geom::Sides`). -/
structure Sides (α : Type) where
  left : α
  top : α
  right : α
  bottom : α
deriving DecidableEq, Repr

/-- Font families (`exec::FontFamily`), an external value type. -/
inductive FontFamily where
  | serif
  | sansSerif
  | monospace
  | named (name : String)
deriving DecidableEq, Repr

/-- Modelled from the spec: the resolved text properties of a text run
("resolved text size/properties"); the concrete struct lives outside the
provided source, so it is modelled as the data the font state resolves:
size, family preference list and an abstract variant token. -/
structure FontProps where
  size : Length
  families : List FontFamily
  variant : Nat
deriving DecidableEq, Repr

/-- Modelled from the spec: the list of preferred font families, with
`set_monospace` prepending the monospace family. -/
structure FamilyList where
  list : List FontFamily
deriving DecidableEq, Repr

/-- Modelled from the spec: the font portion of the formatting state,
supplying `resolve_size` and `resolve_props` on demand. -/
structure FontState where
  size : Length
  families : FamilyList
  variant : Nat
deriving DecidableEq, Repr

/-- The resolved font size (`FontState::resolve_size`). -/
def FontState.resolve_size (f : FontState) : Length :=
  f.size

/-- The resolved text properties (`FontState::resolve_props`). -/
def FontState.resolve_props (f : FontState) : FontProps :=
  { size := f.size, families := f.families.list, variant := f.variant }

/-- Modelled from the spec: the paragraph portion of the formatting state
(paragraph spacing, leading, word spacing). -/
structure ParState where
  spacing : Linear
  leading : Linear
  word_spacing : Linear
deriving DecidableEq, Repr

/-- Modelled from the spec: the language portion of the formatting state
(the writing direction). -/
structure LangState where
  dir : Dir
deriving DecidableEq, Repr

/-- Modelled from the spec: the page portion of the formatting state
(page size and margins). -/
structure PageState where
  size : Size
  margins : Sides Linear
deriving DecidableEq, Repr

/-- Modelled from the spec: the formatting state threaded through
execution ("active font family preference list, resolved text
size/properties, paragraph spacing/leading/word-spacing, cross-axis and
main-axis alignment, language writing direction, page size and margin
sides"). -/
structure State where
  font : FontState
  par : ParState
  aligns : Gen Align
  lang : LangState
  page : PageState
deriving DecidableEq, Repr

/-- A source span (`syntax::Span`), an opaque external value type. -/
structure Span where
  lo : Nat
  hi : Nat
deriving DecidableEq, Repr

/-- The default span (`Span::default()`). -/
def Span.default : Span := ⟨0, 0⟩

/-- Diagnostic severity levels (`diag::Level`). -/
inductive Level where
  | error
  | warning
deriving DecidableEq, Repr

/-- A diagnostic (`diag::Diag`): a level, the originating span and a
message. -/
structure Diag where
  level : Level
  span : Span
  message : String
deriving DecidableEq, Repr

/-- The diagnostic set (`diag::DiagSet`, a set of diagnostics): modelled
as a duplicate-free list; `insert` adds a diagnostic not yet present. -/
abbrev DiagSet := List Diag

/-- Set insertion (`DiagSet::insert`): a no-op when the diagnostic is
already recorded. -/
def DiagSet.insert (s : DiagSet) (d : Diag) : DiagSet :=
  if d ∈ s then s else s ++ [d]

/-- A text node (`layout::TextNode`): its string and resolved props. -/
structure TextNode where
  text : String
  props : FontProps
deriving DecidableEq, Repr

mutual

/-- A type-erased layout node (`layout::AnyNode`): the node kinds this
module constructs, plus an opaque case for foreign nodes pushed by the
evaluator. -/
inductive AnyNode where
  | pad (node : PadNode)
  | par (node : ParNode)
  | stack (node : StackNode)
  | other (id : Nat)

/-- A padding node (`layout::PadNode`). -/
inductive PadNode where
  | mk (padding : Sides Linear) (child : AnyNode)

/-- A paragraph node (`layout::ParNode`). -/
inductive ParNode where
  | mk (dir : Dir) (line_spacing : Length) (children : List ParChild)

/-- An inline child of a paragraph (`layout::ParChild`). -/
inductive ParChild where
  | spacing (amount : Length)
  | linebreak
  | text (node : TextNode) (align : Align)
  | any (node : AnyNode) (align : Align)

/-- A stack node (`layout::StackNode`). -/
inductive StackNode where
  | mk (dirs : Gen Dir) (children : List StackChild)

/-- A block-level child of a stack (`layout::StackChild`). -/
inductive StackChild where
  | spacing (amount : Length)
  | any (node : AnyNode) (aligns : Gen Align)

end

/-- The padding of a `PadNode`. -/
def PadNode.padding : PadNode → Sides Linear
  | .mk p _ => p

/-- The child of a `PadNode`. -/
def PadNode.child : PadNode → AnyNode
  | .mk _ c => c

/-- The direction of a `ParNode`. -/
def ParNode.dir : ParNode → Dir
  | .mk d _ _ => d

/-- The line spacing of a `ParNode`. -/
def ParNode.line_spacing : ParNode → Length
  | .mk _ l _ => l

/-- The children of a `ParNode`. -/
def ParNode.children : ParNode → List ParChild
  | .mk _ _ c => c

/-- The directions of a `StackNode`. -/
def StackNode.dirs : StackNode → Gen Dir
  | .mk d _ => d

/-- The children of a `StackNode`. -/
def StackNode.children : StackNode → List StackChild
  | .mk _ c => c

/-- A finished page (`layout::PageRun`): a size and a padded child. -/
structure PageRun where
  size : Size
  child : AnyNode

/-- The finished tree of page runs (`layout::Tree`). -/
structure Tree where
  runs : List PageRun

/-- The finite state machine for spacing coalescing (`Last<N>`). -/
inductive Last (α : Type) where
  | none
  | any
  | soft (item : α)

/-- `Last::any`: take the pending soft item (if any) and move to `Any`. -/
def Last.take_pending : Last α → Option α × Last α
  | .soft s => (some s, .any)
  | _ => (Option.none, .any)

/-- `Last::soft`: remember a soft item only when the state is `Any`. -/
def Last.request_soft : Last α → α → Last α
  | .any, s => .soft s
  | l, _ => l

/-- `Last::hard`: unconditionally reset to `None`. -/
def Last.request_hard : Last α → Last α
  | _ => .none

/-- The paragraph builder (`ParBuilder`). -/
structure ParBuilder where
  aligns : Gen Align
  dir : Dir
  line_spacing : Length
  children : List ParChild
  last : Last ParChild

/-- `ParBuilder::new`. -/
def ParBuilder.new (state : State) : ParBuilder :=
  let em := state.font.resolve_size
  { aligns := state.aligns
    dir := state.lang.dir
    line_spacing := state.par.leading.resolve em
    children := []
    last := .none }

/-- `ParBuilder::push`: flush the pending soft item, then append. -/
def ParBuilder.push (b : ParBuilder) (child : ParChild) : ParBuilder :=
  let r := b.last.take_pending
  { b with children := b.children ++ r.1.toList ++ [child], last := r.2 }

/-- `ParBuilder::push_text`: flush the pending soft item, then merge into
a trailing text child with identical alignment and props, or append. -/
def ParBuilder.push_text (b : ParBuilder) (text : String) (state : State) : ParBuilder :=
  match (b.children ++ (b.last.take_pending).1.toList).getLast? with
  | some (ParChild.text prev prevAlign) =>
    if prevAlign = state.aligns.cross ∧ prev.props = state.font.resolve_props then
      { b with
        children := (b.children ++ (b.last.take_pending).1.toList).dropLast
          ++ [ParChild.text ⟨prev.text ++ text, prev.props⟩ prevAlign]
        last := (b.last.take_pending).2 }
    else
      { b with
        children := (b.children ++ (b.last.take_pending).1.toList)
          ++ [ParChild.text ⟨text, state.font.resolve_props⟩ state.aligns.cross]
        last := (b.last.take_pending).2 }
  | _ =>
    { b with
      children := (b.children ++ (b.last.take_pending).1.toList)
        ++ [ParChild.text ⟨text, state.font.resolve_props⟩ state.aligns.cross]
      last := (b.last.take_pending).2 }

/-- `ParBuilder::push_soft`. -/
def ParBuilder.push_soft (b : ParBuilder) (child : ParChild) : ParBuilder :=
  { b with last := b.last.request_soft child }

/-- `ParBuilder::push_hard`. -/
def ParBuilder.push_hard (b : ParBuilder) (child : ParChild) : ParBuilder :=
  { b with last := b.last.request_hard, children := b.children ++ [child] }

/-- `ParBuilder::build`: an empty paragraph yields nothing. -/
def ParBuilder.build (b : ParBuilder) : Option StackChild :=
  if b.children.isEmpty then Option.none
  else some (StackChild.any (AnyNode.par (ParNode.mk b.dir b.line_spacing b.children)) b.aligns)

/-- The stack builder (`StackBuilder`). -/
structure StackBuilder where
  dirs : Gen Dir
  children : List StackChild
  last : Last StackChild
  par : ParBuilder

/-- `StackBuilder::new`. -/
def StackBuilder.new (state : State) : StackBuilder :=
  { dirs := ⟨Dir.ttb, state.lang.dir⟩
    children := []
    last := .none
    par := ParBuilder.new state }

/-- `StackBuilder::push_soft`. -/
def StackBuilder.push_soft (sb : StackBuilder) (child : StackChild) : StackBuilder :=
  { sb with last := sb.last.request_soft child }

/-- `StackBuilder::push_hard`. -/
def StackBuilder.push_hard (sb : StackBuilder) (child : StackChild) : StackBuilder :=
  { sb with last := sb.last.request_hard, children := sb.children ++ [child] }

/-- `StackBuilder::parbreak`: replace the paragraph builder with a fresh
one; if the old one built a node, flush the pending soft item and append
the node. -/
def StackBuilder.parbreak (sb : StackBuilder) (state : State) : StackBuilder :=
  match sb.par.build with
  | some p =>
    let r := sb.last.take_pending
    { sb with par := ParBuilder.new state
              children := sb.children ++ r.1.toList ++ [p]
              last := r.2 }
  | Option.none => { sb with par := ParBuilder.new state }

/-- `StackBuilder::build`: flush the final open paragraph the same way,
then return the stack node. -/
def StackBuilder.build (sb : StackBuilder) : StackNode :=
  match sb.par.build with
  | some p =>
    let r := sb.last.take_pending
    StackNode.mk sb.dirs (sb.children ++ r.1.toList ++ [p])
  | Option.none => StackNode.mk sb.dirs sb.children

/-- The page builder (`PageBuilder`). -/
structure PageBuilder where
  size : Size
  padding : Sides Linear
  hard : Bool

/-- `PageBuilder::new`. -/
def PageBuilder.new (state : State) (hard : Bool) : PageBuilder :=
  { size := state.page.size, padding := state.page.margins, hard := hard }

/-- `PageBuilder::build`: a page run only if the block is non-empty or
the page's triggering break was hard and the caller keeps it. -/
def PageBuilder.build (pb : PageBuilder) (child : StackNode) (keep : Bool) : Option PageRun :=
  if !child.children.isEmpty || (keep && pb.hard) then
    some { size := pb.size, child := AnyNode.pad (PadNode.mk pb.padding (AnyNode.stack child)) }
  else Option.none

/-- The execution context (`ExecContext`); the opaque resource
environment `env` carries no data relevant to the builders and is
omitted. -/
structure ExecContext where
  state : State
  diags : DiagSet
  tree : Tree
  page : Option PageBuilder
  stack : StackBuilder

/-- `ExecContext::new`. -/
def ExecContext.new (state : State) : ExecContext :=
  { state := state
    diags := []
    tree := ⟨[]⟩
    page := some (PageBuilder.new state true)
    stack := StackBuilder.new state }

/-- `ExecContext::diag`. -/
def ExecContext.diag (ctx : ExecContext) (d : Diag) : ExecContext :=
  { ctx with diags := ctx.diags.insert d }

/-- `ExecContext::set_monospace`. -/
def ExecContext.set_monospace (ctx : ExecContext) : ExecContext :=
  { ctx with state := { ctx.state with
      font := { ctx.state.font with
        families := ⟨FontFamily.monospace :: ctx.state.font.families.list⟩ } } }

/-- `ExecContext::exec_group`: snapshot the state, remove the page
context, swap in a fresh stack builder, run the template (an arbitrary
action on the context, as in the source), then restore state, page and
the outer stack and return the nested stack node. -/
def ExecContext.exec_group (ctx : ExecContext) (template : ExecContext → ExecContext) :
    StackNode × ExecContext :=
  let snapshot := ctx.state
  let page := ctx.page
  let stack := ctx.stack
  let inner := template { ctx with page := Option.none, stack := StackBuilder.new ctx.state }
  (inner.stack.build, { inner with state := snapshot, page := page, stack := stack })

/-- `ExecContext::push`. -/
def ExecContext.push (ctx : ExecContext) (node : AnyNode) : ExecContext :=
  let align := ctx.state.aligns.cross
  { ctx with stack := { ctx.stack with par := ctx.stack.par.push (ParChild.any node align) } }

/-- `ExecContext::push_word_space`. -/
def ExecContext.push_word_space (ctx : ExecContext) : ExecContext :=
  let em := ctx.state.font.resolve_size
  let amount := ctx.state.par.word_spacing.resolve em
  { ctx with stack := { ctx.stack with par := ctx.stack.par.push_soft (ParChild.spacing amount) } }

/-- Push accumulated buffer text into the open paragraph (the
`self.stack.par.push_text(…, &self.state)` calls in `push_text`). -/
def ExecContext.par_push_text (ctx : ExecContext) (text : String) : ExecContext :=
  { ctx with stack := { ctx.stack with par := ctx.stack.par.push_text text ctx.state } }

/-- `ExecContext::linebreak`. -/
def ExecContext.linebreak (ctx : ExecContext) : ExecContext :=
  { ctx with stack := { ctx.stack with par := ctx.stack.par.push_hard ParChild.linebreak } }

/-- Modelled from the spec: line-boundary characters recognized while
scanning text (`parse::is_newline`, outside the provided source): line
feed and carriage return. -/
def is_newline (c : Char) : Bool :=
  c = '\n' || c = '\r'

/-- The scanning loop of `ExecContext::push_text`: `Scanner` and
`eat_merging_crlf` live outside the provided source; modelled from the
spec, a carriage return immediately followed by a line feed is consumed
as one boundary character; on each boundary the buffer is flushed and a
hard line break is pushed; the final buffer is flushed at the end. -/
def ExecContext.push_text_loop : ExecContext → List Char → String → ExecContext
  | ctx, [], buf => ctx.par_push_text buf
  | ctx, '\r' :: '\n' :: rest, buf =>
    ((ctx.par_push_text buf).linebreak).push_text_loop rest ""
  | ctx, c :: rest, buf =>
    if is_newline c then ((ctx.par_push_text buf).linebreak).push_text_loop rest ""
    else ctx.push_text_loop rest (buf.push c)

/-- `ExecContext::push_text`: split the text into lines at newlines. -/
def ExecContext.push_text (ctx : ExecContext) (text : String) : ExecContext :=
  ctx.push_text_loop text.data ""

/-- `ExecContext::push_spacing`: main-axis spacing forces a paragraph
break and is a hard stack child; cross-axis spacing is a hard paragraph
child. -/
def ExecContext.push_spacing (ctx : ExecContext) (axis : GenAxis) (amount : Length) : ExecContext :=
  match axis with
  | GenAxis.main =>
    { ctx with stack := (ctx.stack.parbreak ctx.state).push_hard (StackChild.spacing amount) }
  | GenAxis.cross =>
    { ctx with stack := { ctx.stack with par := ctx.stack.par.push_hard (ParChild.spacing amount) } }

/-- `ExecContext::parbreak`: close the current paragraph and push the
paragraph spacing as a soft stack child. -/
def ExecContext.parbreak (ctx : ExecContext) : ExecContext :=
  let em := ctx.state.font.resolve_size
  let amount := ctx.state.par.spacing.resolve em
  { ctx with stack := (ctx.stack.parbreak ctx.state).push_soft (StackChild.spacing amount) }

/-- `ExecContext::pagebreak`: with an active page context, swap in fresh
page and stack builders and append the finished page run (if any);
otherwise record a diagnostic. -/
def ExecContext.pagebreak (ctx : ExecContext) (keep hard : Bool) (source : Span) : ExecContext :=
  match ctx.page with
  | some builder =>
    { ctx with
      page := some (PageBuilder.new ctx.state hard)
      stack := StackBuilder.new ctx.state
      tree := ⟨ctx.tree.runs ++ (builder.build ctx.stack.build keep).toList⟩ }
  | Option.none =>
    ctx.diag ⟨Level.error, source, "cannot modify page from here"⟩

/-- `ExecContext::finish`: the `assert!(self.page.is_some())` is modelled
by returning `none` when the contract is violated; otherwise perform the
final implicit page break and return the tree with the diagnostics. -/
def ExecContext.finish (ctx : ExecContext) : Option (Tree × DiagSet) :=
  match ctx.page with
  | some _ =>
    let c := ctx.pagebreak true false Span.default
    some (c.tree, c.diags)
  | Option.none => Option.none

/-- The public operations of the execution context, as driven by the
external template evaluator; `group` carries an arbitrary action on the
context (the nested template's execution) whose resulting stack node is
pushed, as the source's callers of `exec_group` do. -/
inductive Op where
  | push (node : AnyNode)
  | push_word_space
  | push_text (s : String)
  | push_spacing (axis : GenAxis) (amount : Length)
  | linebreak
  | parbreak
  | pagebreak (keep : Bool) (hard : Bool) (source : Span)
  | set_monospace
  | group (template : ExecContext → ExecContext)

/-- Interpret one operation on the context. -/
def execOp : Op → ExecContext → ExecContext
  | .push n, ctx => ctx.push n
  | .push_word_space, ctx => ctx.push_word_space
  | .push_text s, ctx => ctx.push_text s
  | .push_spacing axis amount, ctx => ctx.push_spacing axis amount
  | .linebreak, ctx => ctx.linebreak
  | .parbreak, ctx => ctx.parbreak
  | .pagebreak k h sp, ctx => ctx.pagebreak k h sp
  | .set_monospace, ctx => ctx.set_monospace
  | .group f, ctx =>
    let r := ctx.exec_group f
    r.2.push (AnyNode.stack r.1)

/-- Interpret a sequence of operations on the context. -/
def execOps : List Op → ExecContext → ExecContext
  | [], ctx => ctx
  | op :: rest, ctx => execOps rest (execOp op ctx)

/-- A concrete formatting state used for witnesses. -/
def sampleState : State :=
  { font := { size := 10, families := ⟨[FontFamily.serif]⟩, variant := 0 }
    par := { spacing := ⟨0, 5⟩, leading := ⟨0, 3⟩, word_spacing := ⟨0, 2⟩ }
    aligns := ⟨Align.start, Align.start⟩
    lang := { dir := Dir.ltr }
    page := { size := ⟨595, 842⟩
              margins := ⟨⟨0, 28⟩, ⟨0, 28⟩, ⟨0, 28⟩, ⟨0, 28⟩⟩ } }

/-! ## Frame lemmas -/

/-- The text-scanning loop only mutates the open paragraph builder: the
page, tree, diagnostics, state and the stack's own children, automaton
and directions are untouched. -/
theorem push_text_loop_frame (ctx : ExecContext) (cs : List Char) (buf : String) :
    (ctx.push_text_loop cs buf).page = ctx.page ∧
    (ctx.push_text_loop cs buf).tree = ctx.tree ∧
    (ctx.push_text_loop cs buf).diags = ctx.diags ∧
    (ctx.push_text_loop cs buf).state = ctx.state ∧
    (ctx.push_text_loop cs buf).stack.children = ctx.stack.children ∧
    (ctx.push_text_loop cs buf).stack.last = ctx.stack.last ∧
    (ctx.push_text_loop cs buf).stack.dirs = ctx.stack.dirs := by
  induction ctx, cs, buf using ExecContext.push_text_loop.induct <;>
    simp_all [ExecContext.push_text_loop, ExecContext.par_push_text, ExecContext.linebreak,
      is_newline]

/-- Each operation preserves whether a page context is active. -/
theorem execOp_page_isSome (op : Op) (ctx : ExecContext) :
    (execOp op ctx).page.isSome = ctx.page.isSome := by
  cases op with
  | push n => rfl
  | push_word_space => rfl
  | push_text s =>
    exact congrArg Option.isSome (push_text_loop_frame ctx s.data "").1
  | push_spacing a m => cases a <;> rfl
  | linebreak => rfl
  | parbreak => rfl
  | pagebreak k h sp =>
    cases hp : ctx.page <;>
      simp [execOp, ExecContext.pagebreak, hp, ExecContext.diag]
  | set_monospace => rfl
  | group f => rfl

/-- A sequence of operations preserves whether a page context is active. -/
theorem execOps_page_isSome (ops : List Op) (ctx : ExecContext) :
    (execOps ops ctx).page.isSome = ctx.page.isSome := by
  induction ops generalizing ctx with
  | nil => rfl
  | cons op rest ih => rw [execOps, ih, execOp_page_isSome]

/-! ## Claim theorems -/

/-- C4: for every template executed via `exec_group`, the formatting
state observed immediately after `exec_group` returns equals the state
immediately before the call, and the page builder and the outer stack
builder are likewise restored, regardless of what the nested execution
did to the context. -/
theorem exec_group_restores_context (ctx : ExecContext) (f : ExecContext → ExecContext) :
    (ctx.exec_group f).2.state = ctx.state ∧
    (ctx.exec_group f).2.page = ctx.page ∧
    (ctx.exec_group f).2.stack = ctx.stack :=
  ⟨rfl, rfl, rfl⟩

/-- C9: the `assert!(self.page.is_some())` in `finish` never fails for
any sequence of public operations performed on a top-level execution
context: `finish` (modelled to return `none` exactly when the assertion
would fail) always succeeds. -/
theorem finish_assert_never_fails (s : State) (ops : List Op) :
    ((execOps ops (ExecContext.new s)).finish).isSome = true := by
  have h := execOps_page_isSome ops (ExecContext.new s)
  cases hp : (execOps ops (ExecContext.new s)).page with
  | none => rw [hp] at h; simp [ExecContext.new] at h
  | some pb => simp [ExecContext.finish, hp]

/-- C10: `finish` on a freshly created execution context returns a tree
containing exactly one page run whose child is a padded empty stack
node, together with an empty diagnostic set: the initial page builder is
hard, and the implicit final break keeps it. -/
theorem finish_fresh_keeps_empty_page (s : State) :
    (ExecContext.new s).finish =
      some (⟨[⟨s.page.size,
               AnyNode.pad (PadNode.mk s.page.margins
                 (AnyNode.stack (StackNode.mk ⟨Dir.ttb, s.lang.dir⟩ [])))⟩]⟩, []) :=
  rfl

/-- Whether an inline child is a forced line break. -/
def ParChild.isLinebreak : ParChild → Bool
  | .linebreak => true
  | _ => false

/-- The string of an inline text child. -/
def ParChild.textString : ParChild → Option String
  | .text t _ => some t.text
  | _ => Option.none

/-- C6: `push_text "a\r\nb\nc"` produces exactly two forced line-break
children and three text runs `"a"`, `"b"`, `"c"` in the open paragraph:
the carriage return/line feed pair counts as one boundary, each boundary
flushes the buffer and pushes one hard line break, and the final buffer
is flushed once at the end. -/
theorem push_text_crlf_splitting (s : State) :
    ((ExecContext.new s).push_text "a\r\nb\nc").stack.par.children =
      [ParChild.text ⟨"a", s.font.resolve_props⟩ s.aligns.cross,
       ParChild.linebreak,
       ParChild.text ⟨"b", s.font.resolve_props⟩ s.aligns.cross,
       ParChild.linebreak,
       ParChild.text ⟨"c", s.font.resolve_props⟩ s.aligns.cross] ∧
    ((ExecContext.new s).push_text "a\r\nb\nc").stack.par.children.countP
      (fun c => ParChild.isLinebreak c) = 2 ∧
    ((ExecContext.new s).push_text "a\r\nb\nc").stack.par.children.filterMap
      ParChild.textString = ["a", "b", "c"] :=
  ⟨rfl, rfl, rfl⟩

/-- C8: calling `pagebreak` while no page context is active records the
"cannot modify page from here" diagnostic at the originating span and
leaves everything else — tree, stack builder, formatting state —
unchanged; when that diagnostic is not already present, exactly one
diagnostic is appended. -/
theorem pagebreak_without_page_context (ctx : ExecContext) (keep hard : Bool) (source : Span)
    (hp : ctx.page = Option.none) :
    ctx.pagebreak keep hard source =
      { ctx with diags := ctx.diags.insert ⟨Level.error, source, "cannot modify page from here"⟩ } ∧
    (ctx.pagebreak keep hard source).tree = ctx.tree ∧
    (ctx.pagebreak keep hard source).stack = ctx.stack ∧
    (ctx.pagebreak keep hard source).state = ctx.state ∧
    ((⟨Level.error, source, "cannot modify page from here"⟩ : Diag) ∉ ctx.diags →
      (ctx.pagebreak keep hard source).diags =
        ctx.diags ++ [⟨Level.error, source, "cannot modify page from here"⟩]) := by
  have e : ctx.pagebreak keep hard source =
      { ctx with diags := ctx.diags.insert ⟨Level.error, source, "cannot modify page from here"⟩ } := by
    simp [ExecContext.pagebreak, hp, ExecContext.diag]
  refine ⟨e, by rw [e], by rw [e], by rw [e], fun hmem => ?_⟩
  rw [e]
  simp [DiagSet.insert, hmem]

/-- A context with no active page context (as inside `exec_group`),
used as a concrete input. -/
def noPageCtx : ExecContext :=
  { ExecContext.new sampleState with page := Option.none }

/-- Witness for C8 at a concrete input. -/
theorem pagebreak_without_page_context_witness :
    (noPageCtx.pagebreak true true ⟨3, 7⟩).diags =
      noPageCtx.diags ++ [⟨Level.error, ⟨3, 7⟩, "cannot modify page from here"⟩] ∧
    (noPageCtx.pagebreak true true ⟨3, 7⟩).tree = noPageCtx.tree ∧
    (noPageCtx.pagebreak true true ⟨3, 7⟩).stack = noPageCtx.stack :=
  ⟨(pagebreak_without_page_context noPageCtx true true ⟨3, 7⟩ rfl).2.2.2.2 (by decide),
   (pagebreak_without_page_context noPageCtx true true ⟨3, 7⟩ rfl).2.1,
   (pagebreak_without_page_context noPageCtx true true ⟨3, 7⟩ rfl).2.2.1⟩

/-- Whether a block-level child is a spacing child. -/
def StackChild.isSpacing : StackChild → Bool
  | .spacing _ => true
  | _ => false

/-- A fresh paragraph builder builds no node. -/
theorem ParBuilder.new_build (st : State) : (ParBuilder.new st).build = Option.none :=
  rfl

/-- Two stack builders with equal fields are equal. -/
theorem stackBuilder_fields_ext {a b : StackBuilder} (h1 : a.dirs = b.dirs)
    (h2 : a.children = b.children) (h3 : a.last = b.last) (h4 : a.par = b.par) :
    a = b := by
  cases a; cases b; simp_all

/-- Two execution contexts with equal fields are equal. -/
theorem execContext_fields_ext {a b : ExecContext} (h1 : a.state = b.state)
    (h2 : a.diags = b.diags) (h3 : a.tree = b.tree) (h4 : a.page = b.page)
    (h5 : a.stack = b.stack) : a = b := by
  cases a; cases b; simp_all

/-- `push_soft` leaves the paragraph builder untouched. -/
@[simp] theorem push_soft_par (sb : StackBuilder) (c : StackChild) :
    (sb.push_soft c).par = sb.par := rfl

/-- `push_soft` leaves the accumulated children untouched. -/
@[simp] theorem push_soft_children (sb : StackBuilder) (c : StackChild) :
    (sb.push_soft c).children = sb.children := rfl

/-- `push_soft` leaves the directions untouched. -/
@[simp] theorem push_soft_dirs (sb : StackBuilder) (c : StackChild) :
    (sb.push_soft c).dirs = sb.dirs := rfl

/-- `push_soft` routes the item through the automaton. -/
@[simp] theorem push_soft_last (sb : StackBuilder) (c : StackChild) :
    (sb.push_soft c).last = sb.last.request_soft c := rfl

/-- `StackBuilder::parbreak` always leaves a fresh paragraph builder. -/
theorem stackbuilder_parbreak_par (sb : StackBuilder) (st : State) :
    (sb.parbreak st).par = ParBuilder.new st := by
  unfold StackBuilder.parbreak
  cases h : sb.par.build <;> rfl

/-- `StackBuilder::parbreak` leaves the directions untouched. -/
theorem stackbuilder_parbreak_dirs (sb : StackBuilder) (st : State) :
    (sb.parbreak st).dirs = sb.dirs := by
  unfold StackBuilder.parbreak
  cases h : sb.par.build <;> rfl

/-- A `parbreak` on a builder whose paragraph is empty only refreshes
the paragraph builder. -/
theorem stackbuilder_parbreak_of_none (sb : StackBuilder) (st : State)
    (h : sb.par.build = Option.none) :
    sb.parbreak st = { sb with par := ParBuilder.new st } := by
  unfold StackBuilder.parbreak
  rw [h]

/-- A second soft request never overrides the first pending one. -/
theorem Last.request_soft_idem (l : Last α) (a b : α) :
    (l.request_soft a).request_soft b = l.request_soft a := by
  cases l <;> rfl

/-- `parbreak` at the stack level is idempotent. -/
theorem parbreak_stack_idem (sb : StackBuilder) (st : State) (sp : StackChild) :
    (((sb.parbreak st).push_soft sp).parbreak st).push_soft sp
      = (sb.parbreak st).push_soft sp := by
  have hb : ((sb.parbreak st).push_soft sp).par.build = Option.none := by
    rw [push_soft_par, stackbuilder_parbreak_par, ParBuilder.new_build]
  rw [stackbuilder_parbreak_of_none _ _ hb]
  apply stackBuilder_fields_ext <;>
    simp [StackBuilder.push_soft, Last.request_soft_idem, stackbuilder_parbreak_par]

/-- The state left by `ExecContext::parbreak`. -/
@[simp] theorem exec_parbreak_state (ctx : ExecContext) :
    ctx.parbreak.state = ctx.state := rfl

/-- The stack left by `ExecContext::parbreak`. -/
theorem exec_parbreak_stack (ctx : ExecContext) :
    ctx.parbreak.stack = (ctx.stack.parbreak ctx.state).push_soft
      (StackChild.spacing (ctx.state.par.spacing.resolve ctx.state.font.resolve_size)) := rfl

/-- `ExecContext::parbreak` is idempotent. -/
theorem parbreak_parbreak (ctx : ExecContext) :
    ctx.parbreak.parbreak = ctx.parbreak := by
  apply execContext_fields_ext
  · rfl
  · rfl
  · rfl
  · rfl
  · rw [exec_parbreak_stack ctx.parbreak, exec_parbreak_state, exec_parbreak_stack ctx]
    exact parbreak_stack_idem ctx.stack ctx.state _

/-- Any positive number of `parbreak` steps equals a single one. -/
theorem parbreak_replicate (ctx : ExecContext) (n : Nat) :
    execOps (List.replicate n Op.parbreak) ctx.parbreak = ctx.parbreak := by
  induction n with
  | zero => rfl
  | succ m ih =>
    rw [List.replicate_succ, execOps]
    show execOps (List.replicate m Op.parbreak) ctx.parbreak.parbreak = ctx.parbreak
    rw [parbreak_parbreak]
    exact ih

/-- A `parbreak` never changes the children of the built stack node: its
soft spacing stays pending until real content follows. -/
theorem parbreak_then_build_children (sb : StackBuilder) (st : State) (sp : StackChild) :
    ((((sb.parbreak st).push_soft sp).build)).children = (sb.build).children := by
  have hb : ((sb.parbreak st).push_soft sp).par.build = Option.none := by
    rw [push_soft_par, stackbuilder_parbreak_par, ParBuilder.new_build]
  unfold StackBuilder.build
  rw [hb]
  cases h : sb.par.build <;>
    simp [h, StackBuilder.parbreak, StackBuilder.push_soft, StackNode.children]

/-- C5: a run of `n ≥ 1` consecutive
`parbreak` operations with no content between them acts exactly like a
single `parbreak`, and a single `parbreak` adds at most one spacing
child to the resulting block node. -/
theorem parbreak_run_collapses (ctx : ExecContext) (n : Nat) (h : 1 ≤ n) :
    execOps (List.replicate n Op.parbreak) ctx = execOps [Op.parbreak] ctx ∧
    ((execOps [Op.parbreak] ctx).stack.build).children.countP
        (fun c => StackChild.isSpacing c) ≤
      ((ctx.stack.build).children.countP (fun c => StackChild.isSpacing c)) + 1 := by
  obtain ⟨m, rfl⟩ : ∃ m, n = m + 1 := ⟨n - 1, (Nat.succ_pred_eq_of_pos h).symm⟩
  constructor
  · rw [List.replicate_succ, execOps]
    show execOps (List.replicate m Op.parbreak) ctx.parbreak = _
    rw [parbreak_replicate]
    rfl
  · show (((ctx.stack.parbreak ctx.state).push_soft
        (StackChild.spacing (ctx.state.par.spacing.resolve ctx.state.font.resolve_size))).build).children.countP
          (fun c => StackChild.isSpacing c) ≤ _
    rw [parbreak_then_build_children]
    exact Nat.le_succ _

/-- Witness for C5 at a concrete input. -/
theorem parbreak_run_collapses_witness :
    execOps (List.replicate 3 Op.parbreak) (ExecContext.new sampleState) =
      execOps [Op.parbreak] (ExecContext.new sampleState) ∧
    ((execOps [Op.parbreak] (ExecContext.new sampleState)).stack.build).children.countP
        (fun c => StackChild.isSpacing c) ≤
      (((ExecContext.new sampleState).stack.build).children.countP
        (fun c => StackChild.isSpacing c)) + 1 :=
  parbreak_run_collapses (ExecContext.new sampleState) 3 (by decide)

/-- C3 (amended): with an active page context and no accumulated content
on the current page, `pagebreak(keep := false, …)` appends no page run,
and `pagebreak(keep := true, …)` appends exactly one page run with an
empty padded block child precisely when the pending page builder's
`hard` flag is set (as it is on a fresh context). -/
theorem pagebreak_empty_page (ctx : ExecContext) (pb : PageBuilder) (hard2 : Bool) (sp : Span)
    (hp : ctx.page = some pb) (he : (ctx.stack.build).children = []) :
    (ctx.pagebreak false hard2 sp).tree = ctx.tree ∧
    (ctx.pagebreak true hard2 sp).tree.runs =
      ctx.tree.runs ++
        (if pb.hard then
          [⟨pb.size, AnyNode.pad (PadNode.mk pb.padding (AnyNode.stack ctx.stack.build))⟩]
         else []) := by
  constructor
  · simp [ExecContext.pagebreak, hp, PageBuilder.build, he]
  · cases hb : pb.hard <;>
      simp [ExecContext.pagebreak, hp, PageBuilder.build, he, hb]

/-- Witness for C3 (amended) at a concrete input: a fresh context. -/
theorem pagebreak_empty_page_witness :
    ((ExecContext.new sampleState).pagebreak false true ⟨0, 0⟩).tree =
      (ExecContext.new sampleState).tree ∧
    ((ExecContext.new sampleState).pagebreak true true ⟨0, 0⟩).tree.runs =
      (ExecContext.new sampleState).tree.runs ++
        (if (PageBuilder.new sampleState true).hard then
          [⟨(PageBuilder.new sampleState true).size,
            AnyNode.pad (PadNode.mk (PageBuilder.new sampleState true).padding
              (AnyNode.stack (ExecContext.new sampleState).stack.build))⟩]
         else []) :=
  pagebreak_empty_page (ExecContext.new sampleState) (PageBuilder.new sampleState true) true
    ⟨0, 0⟩ rfl rfl

/-- A context whose (still empty) current page was started by a soft
page break. -/
def softBreakCtx : ExecContext :=
  (ExecContext.new sampleState).pagebreak false false ⟨0, 0⟩

/-- C3 counterexample: on a context whose empty current page was begun
by a soft break, `pagebreak(keep := true, hard := true, …)` appends no
page run at all, although the current page has accumulated no content —
the claim promises exactly one appended run. -/
theorem pagebreak_keep_hard_appends_nothing :
    (softBreakCtx.stack.build).children = [] ∧
    softBreakCtx.tree.runs = [] ∧
    (softBreakCtx.pagebreak true true ⟨0, 0⟩).tree.runs = [] :=
  ⟨rfl, rfl, rfl⟩

/-- Two paragraph builders with equal fields are equal. -/
theorem parBuilder_fields_ext {a b : ParBuilder} (h1 : a.aligns = b.aligns)
    (h2 : a.dir = b.dir) (h3 : a.line_spacing = b.line_spacing)
    (h4 : a.children = b.children) (h5 : a.last = b.last) : a = b := by
  cases a; cases b; simp_all

/-- A soft or hard break request at the paragraph level, with its
payload: the shape of an event stream between two content pushes. -/
inductive SHOp where
  | soft (child : ParChild)
  | hard (child : ParChild)

/-- Run a sequence of soft/hard requests on a paragraph builder. -/
def applySH : List SHOp → ParBuilder → ParBuilder
  | [], b => b
  | SHOp.soft c :: rest, b => applySH rest (b.push_soft c)
  | SHOp.hard c :: rest, b => applySH rest (b.push_hard c)

/-- The payload of a hard request. -/
def SHOp.hardPayload : SHOp → Option ParChild
  | .hard c => some c
  | _ => Option.none

/-- Whether every request in the sequence is soft. -/
def allSoft : List SHOp → Bool
  | [] => true
  | SHOp.soft _ :: rest => allSoft rest
  | SHOp.hard _ :: _ => false

/-- The automaton state after a sequence of soft/hard requests. -/
def runLast : Last ParChild → List SHOp → Last ParChild
  | l, [] => l
  | l, SHOp.soft c :: rest => runLast (l.request_soft c) rest
  | l, SHOp.hard _ :: rest => runLast l.request_hard rest

/-- A sequence of soft/hard requests appends exactly the hard payloads
to the children and drives the automaton. -/
theorem applySH_spec (ops : List SHOp) (b : ParBuilder) :
    applySH ops b =
      { b with children := b.children ++ ops.filterMap SHOp.hardPayload
               last := runLast b.last ops } := by
  induction ops generalizing b with
  | nil =>
    apply parBuilder_fields_ext <;> simp [applySH, runLast]
  | cons op rest ih =>
    cases op with
    | soft c =>
      rw [applySH, ih]
      apply parBuilder_fields_ext <;>
        simp [ParBuilder.push_soft, SHOp.hardPayload, runLast, List.filterMap_cons]
    | hard c =>
      rw [applySH, ih]
      apply parBuilder_fields_ext <;>
        simp [ParBuilder.push_hard, SHOp.hardPayload, runLast, List.filterMap_cons]

/-- All-soft sequences contribute no hard payloads. -/
theorem allSoft_no_hard (ops : List SHOp) (h : allSoft ops = true) :
    ops.filterMap SHOp.hardPayload = [] := by
  induction ops with
  | nil => rfl
  | cons op rest ih =>
    cases op with
    | soft c => simp_all [allSoft, SHOp.hardPayload]
    | hard c => simp_all [allSoft]

/-- A pending soft item survives further all-soft requests unchanged. -/
theorem runLast_soft_fixed (x : ParChild) (ops : List SHOp) (h : allSoft ops = true) :
    runLast (Last.soft x) ops = Last.soft x := by
  induction ops with
  | nil => rfl
  | cons op rest ih =>
    cases op with
    | soft c => simp_all [runLast, allSoft, Last.request_soft]
    | hard c => simp_all [allSoft]

/-- C2 (amended): over any sequence of `push_soft`/`push_hard` calls with
no intervening content push, the builder's children gain exactly the
hard items — a pending soft item is never emitted; if the sequence is
all-soft, children and built node are unchanged, and the retained
pending item is the earliest soft item requested after content (not the
most recent); the pending item is dropped by `build`. -/
theorem soft_hard_coalescing (b : ParBuilder) (ops : List SHOp) :
    (applySH ops b).children = b.children ++ ops.filterMap SHOp.hardPayload ∧
    (allSoft ops = true →
      (applySH ops b).children = b.children ∧ (applySH ops b).build = b.build) ∧
    (∀ c rest, b.last = Last.any → ops = SHOp.soft c :: rest → allSoft rest = true →
      (applySH ops b).last = Last.soft c) := by
  refine ⟨by rw [applySH_spec], fun hs => ?_, fun c rest hl ho hr => ?_⟩
  · rw [applySH_spec, allSoft_no_hard ops hs]
    constructor
    · simp
    · simp only [ParBuilder.build, List.append_nil]
  · subst ho
    rw [applySH_spec]
    show runLast b.last (SHOp.soft c :: rest) = Last.soft c
    rw [runLast, hl]
    exact runLast_soft_fixed c rest hr

/-- A paragraph builder holding one text child, with the automaton in
the just-emitted-content state. -/
def parB0 : ParBuilder := (ParBuilder.new sampleState).push_text "x" sampleState

/-- The builder after two consecutive soft requests with no intervening
content push. -/
def parB1 : ParBuilder :=
  applySH [SHOp.soft (ParChild.spacing 1), SHOp.soft (ParChild.spacing 2)] parB0

/-- C2 counterexample: after two soft requests the retained pending item
is the first one requested (spacing 1), not the most recent (spacing 2),
and it is spacing 1 that a later content push emits. -/
theorem soft_retains_first_not_most_recent :
    parB1.last = Last.soft (ParChild.spacing 1) ∧
    ¬ parB1.last = Last.soft (ParChild.spacing 2) ∧
    (parB1.push_text "y" sampleState).children =
      [ParChild.text ⟨"x", sampleState.font.resolve_props⟩ Align.start,
       ParChild.spacing 1,
       ParChild.text ⟨"y", sampleState.font.resolve_props⟩ Align.start] := by
  refine ⟨rfl, fun h => ?_, rfl⟩
  have h2 : Last.soft (ParChild.spacing 1) = Last.soft (ParChild.spacing 2) := h
  injection h2 with h3
  injection h3 with h4
  exact absurd h4 (by decide)

/-- Witness for C2 (amended) at a concrete input. -/
theorem soft_hard_coalescing_witness :
    (applySH [SHOp.soft (ParChild.spacing 3)] parB0).children = parB0.children ∧
    (applySH [SHOp.soft (ParChild.spacing 3)] parB0).build = parB0.build ∧
    (applySH [SHOp.soft (ParChild.spacing 3)] parB0).last = Last.soft (ParChild.spacing 3) :=
  ⟨((soft_hard_coalescing parB0 [SHOp.soft (ParChild.spacing 3)]).2.1 rfl).1,
   ((soft_hard_coalescing parB0 [SHOp.soft (ParChild.spacing 3)]).2.1 rfl).2,
   (soft_hard_coalescing parB0 [SHOp.soft (ParChild.spacing 3)]).2.2
     (ParChild.spacing 3) [] rfl rfl rfl⟩

/-- No leading spacing child. -/
def noLeadSpacing : List StackChild → Bool
  | [] => true
  | c :: _ => !c.isSpacing

/-- No trailing spacing child. -/
def noTrailSpacing : List StackChild → Bool
  | [] => true
  | [c] => !c.isSpacing
  | _ :: rest => noTrailSpacing rest

/-- No two adjacent spacing children. -/
def noAdjSpacing : List StackChild → Bool
  | a :: b :: rest => !(a.isSpacing && b.isSpacing) && noAdjSpacing (b :: rest)
  | _ => true

/-- Whether an operation inserts hard main-axis (block) spacing. -/
def Op.usesMainSpacing : Op → Bool
  | .push_spacing GenAxis.main _ => true
  | _ => false

/-- The trailing-spacing check only looks at the appended suffix. -/
theorem noTrail_append (l l2 : List StackChild) (h : l2 ≠ []) :
    noTrailSpacing (l ++ l2) = noTrailSpacing l2 := by
  induction l with
  | nil => rfl
  | cons a rest ih =>
    cases hr : rest ++ l2 with
    | nil => exact absurd (List.append_eq_nil.mp hr).2 h
    | cons b r2 =>
      show noTrailSpacing (a :: (rest ++ l2)) = noTrailSpacing l2
      rw [hr]
      cases r2 with
      | nil =>
        have : rest ++ l2 = [b] := hr
        rw [show noTrailSpacing (a :: [b]) = noTrailSpacing [b] from rfl, ← this, ih]
      | cons d r3 =>
        rw [show noTrailSpacing (a :: b :: d :: r3) = noTrailSpacing (b :: d :: r3) from rfl,
          ← hr, ih]

/-- The leading-spacing check only looks at the first element. -/
theorem noLead_append (l l2 : List StackChild) (h : l ≠ []) :
    noLeadSpacing (l ++ l2) = noLeadSpacing l := by
  cases l with
  | nil => exact absurd rfl h
  | cons a rest => rfl

/-- Appending one element preserves adjacent-spacing freedom exactly
when the new last pair is compatible. -/
theorem noAdj_append (l : List StackChild) (c : StackChild) :
    noAdjSpacing (l ++ [c])
      = (noAdjSpacing l &&
          (match l.getLast? with
           | some p => !(p.isSpacing && c.isSpacing)
           | Option.none => true)) := by
  induction l with
  | nil => rfl
  | cons a rest ih =>
    cases rest with
    | nil => simp [noAdjSpacing]
    | cons b r2 =>
      rw [List.cons_append]
      show (!(a.isSpacing && b.isSpacing) && noAdjSpacing ((b :: r2) ++ [c])) = _
      rw [ih]
      simp [noAdjSpacing, List.getLast?_cons_cons, Bool.and_assoc]

/-- A list free of trailing spacing ends, if at all, in a non-spacing
child. -/
theorem getLast_nonspacing (l : List StackChild) (h : noTrailSpacing l = true)
    (q : StackChild) (hq : l.getLast? = some q) : q.isSpacing = false := by
  induction l with
  | nil => simp at hq
  | cons a rest ih =>
    cases rest with
    | nil =>
      simp at hq
      subst hq
      simpa [noTrailSpacing] using h
    | cons b r2 =>
      rw [List.getLast?_cons_cons] at hq
      exact ih (by simpa [noTrailSpacing] using h) hq

/-- The inductive invariant of a stack builder reachable without hard
main-axis spacing: children free of leading/trailing/adjacent spacing,
and a non-`None` automaton state only with content already present. -/
def stackInv (sb : StackBuilder) : Prop :=
  noLeadSpacing sb.children = true ∧
  noTrailSpacing sb.children = true ∧
  noAdjSpacing sb.children = true ∧
  (sb.last ≠ Last.none → sb.children ≠ [])

/-- A built paragraph is never a spacing stack child. -/
theorem parBuilder_build_nonspacing (b : ParBuilder) (p : StackChild)
    (h : b.build = some p) : p.isSpacing = false := by
  unfold ParBuilder.build at h
  split at h
  · simp at h
  · injection h with h2
    rw [← h2]
    rfl

/-- Flushing the pending soft item and appending a non-spacing child
preserves the three spacing-separation conditions. -/
theorem flush_ok (children : List StackChild) (l : Last StackChild) (p : StackChild)
    (hp : p.isSpacing = false)
    (h1 : noLeadSpacing children = true) (h2 : noTrailSpacing children = true)
    (h3 : noAdjSpacing children = true) (h4 : l ≠ Last.none → children ≠ []) :
    noLeadSpacing (children ++ (l.take_pending).1.toList ++ [p]) = true ∧
    noTrailSpacing (children ++ (l.take_pending).1.toList ++ [p]) = true ∧
    noAdjSpacing (children ++ (l.take_pending).1.toList ++ [p]) = true := by
  have hpend : (l.take_pending).1.toList = [] ∨
      (∃ x, (l.take_pending).1.toList = [x]) ∧ children ≠ [] := by
    cases l with
    | none => exact Or.inl rfl
    | any => exact Or.inl rfl
    | soft x =>
      exact Or.inr ⟨⟨x, rfl⟩, h4 (fun hn => Last.noConfusion hn)⟩
  rcases hpend with hnil | ⟨⟨x, hx⟩, hne⟩
  · rw [hnil, List.append_nil]
    refine ⟨?_, ?_, ?_⟩
    · cases children with
      | nil => simp [noLeadSpacing, hp]
      | cons a t => exact h1
    · rw [noTrail_append children [p] (by simp)]
      simp [noTrailSpacing, hp]
    · rw [noAdj_append]
      cases hq : children.getLast? with
      | none => simp [h3]
      | some q => simp [h3, getLast_nonspacing children h2 q hq]
  · rw [hx]
    refine ⟨?_, ?_, ?_⟩
    · rw [noLead_append (children ++ [x]) [p] (by simp), noLead_append children [x] hne]
      exact h1
    · rw [noTrail_append (children ++ [x]) [p] (by simp)]
      simp [noTrailSpacing, hp]
    · rw [noAdj_append (children ++ [x]) p, noAdj_append children x, List.getLast?_concat]
      have hxp : !(x.isSpacing && p.isSpacing) = true := by
        rw [hp]
        simp
      cases hq : children.getLast? with
      | none => exact absurd (List.getLast?_eq_none_iff.mp hq) hne
      | some q => simp [h3, hxp, hp, getLast_nonspacing children h2 q hq]

/-- The invariant holds for a fresh stack builder. -/
theorem stackInv_new (st : State) : stackInv (StackBuilder.new st) :=
  ⟨rfl, rfl, rfl, fun h => absurd rfl h⟩

/-- `StackBuilder::parbreak` preserves the invariant. -/
theorem stackInv_parbreak (sb : StackBuilder) (st : State) (h : stackInv sb) :
    stackInv (sb.parbreak st) := by
  obtain ⟨h1, h2, h3, h4⟩ := h
  unfold StackBuilder.parbreak
  cases hb : sb.par.build with
  | none => exact ⟨h1, h2, h3, h4⟩
  | some p =>
    have hp := parBuilder_build_nonspacing sb.par p hb
    have hf := flush_ok sb.children sb.last p hp h1 h2 h3 h4
    exact ⟨hf.1, hf.2.1, hf.2.2, fun _ => by simp⟩

/-- `StackBuilder::push_soft` preserves the invariant. -/
theorem stackInv_push_soft (sb : StackBuilder) (c : StackChild) (h : stackInv sb) :
    stackInv (sb.push_soft c) := by
  obtain ⟨h1, h2, h3, h4⟩ := h
  refine ⟨h1, h2, h3, fun hl => ?_⟩
  cases hc : sb.last with
  | none =>
    rw [push_soft_last, hc] at hl
    exact absurd rfl hl
  | any => exact h4 (fun hn => by rw [hc] at hn; exact Last.noConfusion hn)
  | soft x => exact h4 (fun hn => by rw [hc] at hn; exact Last.noConfusion hn)

/-- The spacing-separation conditions carry over to the built node. -/
theorem stackInv_build (sb : StackBuilder) (h : stackInv sb) :
    noLeadSpacing (sb.build).children = true ∧
    noTrailSpacing (sb.build).children = true ∧
    noAdjSpacing (sb.build).children = true := by
  obtain ⟨h1, h2, h3, h4⟩ := h
  unfold StackBuilder.build
  cases hb : sb.par.build with
  | none => exact ⟨h1, h2, h3⟩
  | some p =>
    have hp := parBuilder_build_nonspacing sb.par p hb
    exact flush_ok sb.children sb.last p hp h1 h2 h3 h4

/-- Each operation that does not insert hard main-axis spacing preserves
the stack invariant. -/
theorem execOp_stackInv (op : Op) (ctx : ExecContext)
    (hop : op.usesMainSpacing = false) (h : stackInv ctx.stack) :
    stackInv (execOp op ctx).stack := by
  cases op with
  | push n => exact h
  | push_word_space => exact h
  | push_text s =>
    show stackInv (ctx.push_text_loop s.data "").stack
    have hf := push_text_loop_frame ctx s.data ""
    unfold stackInv
    rw [hf.2.2.2.2.1, hf.2.2.2.2.2.1]
    exact h
  | push_spacing axis amount =>
    cases axis with
    | main => simp [Op.usesMainSpacing] at hop
    | cross => exact h
  | linebreak => exact h
  | parbreak => exact stackInv_push_soft _ _ (stackInv_parbreak ctx.stack ctx.state h)
  | pagebreak k hd sp =>
    cases hp : ctx.page with
    | some pb =>
      show stackInv (ctx.pagebreak k hd sp).stack
      rw [show (ctx.pagebreak k hd sp).stack = StackBuilder.new ctx.state from by
        simp [ExecContext.pagebreak, hp]]
      exact stackInv_new ctx.state
    | none =>
      show stackInv (ctx.pagebreak k hd sp).stack
      rw [show (ctx.pagebreak k hd sp).stack = ctx.stack from by
        simp [ExecContext.pagebreak, hp, ExecContext.diag]]
      exact h
  | set_monospace => exact h
  | group f => exact h

/-- A sequence of such operations preserves the stack invariant. -/
theorem execOps_stackInv (ops : List Op) (ctx : ExecContext)
    (hops : ∀ op ∈ ops, op.usesMainSpacing = false) (h : stackInv ctx.stack) :
    stackInv (execOps ops ctx).stack := by
  induction ops generalizing ctx with
  | nil => exact h
  | cons op rest ih =>
    rw [execOps]
    exact ih _ (fun o ho => hops o (List.mem_cons_of_mem _ ho))
      (execOp_stackInv op ctx (hops op (List.mem_cons_self _ _)) h)

/-- C1 (amended): for every sequence of operations that does not insert
hard main-axis spacing via `push_spacing`, the block node built from
the top-level stack never contains a leading or trailing spacing child
and never two adjacent spacing children; main-axis `push_spacing` is
hard and appends its spacing verbatim, so it is exempt from the
automaton's guarantee. -/
theorem stack_spacing_separated (s : State) (ops : List Op)
    (hops : ∀ op ∈ ops, op.usesMainSpacing = false) :
    noLeadSpacing ((execOps ops (ExecContext.new s)).stack.build).children = true ∧
    noTrailSpacing ((execOps ops (ExecContext.new s)).stack.build).children = true ∧
    noAdjSpacing ((execOps ops (ExecContext.new s)).stack.build).children = true :=
  stackInv_build _ (execOps_stackInv ops (ExecContext.new s) hops (stackInv_new s))

/-- Witness for C1 (amended) at a concrete input. -/
theorem stack_spacing_separated_witness :
    noLeadSpacing ((execOps [Op.push_text "x", Op.parbreak, Op.parbreak, Op.push_text "y"]
        (ExecContext.new sampleState)).stack.build).children = true ∧
    noTrailSpacing ((execOps [Op.push_text "x", Op.parbreak, Op.parbreak, Op.push_text "y"]
        (ExecContext.new sampleState)).stack.build).children = true ∧
    noAdjSpacing ((execOps [Op.push_text "x", Op.parbreak, Op.parbreak, Op.push_text "y"]
        (ExecContext.new sampleState)).stack.build).children = true :=
  stack_spacing_separated sampleState
    [Op.push_text "x", Op.parbreak, Op.parbreak, Op.push_text "y"] (by decide)

/-- C1 counterexample: two hard main-axis spacing pushes yield a block
node whose children are two adjacent spacing children that also lead
and trail the list, refuting the claim for spacing inserted via
`push_spacing` on the block axis. -/
theorem main_spacing_adjacent_counterexample :
    ((execOps [Op.push_spacing GenAxis.main 1, Op.push_spacing GenAxis.main 2]
        (ExecContext.new sampleState)).stack.build).children
      = [StackChild.spacing 1, StackChild.spacing 2] ∧
    noLeadSpacing [StackChild.spacing 1, StackChild.spacing 2] = false ∧
    noTrailSpacing [StackChild.spacing 1, StackChild.spacing 2] = false ∧
    noAdjSpacing [StackChild.spacing 1, StackChild.spacing 2] = false :=
  ⟨rfl, rfl, rfl, rfl⟩

/-- Whether an inline child is a text child. -/
def ParChild.isText : ParChild → Bool
  | .text _ _ => true
  | _ => false

/-- Whether two adjacent inline children could losslessly merge: both
text with identical cross-axis alignment and resolved properties. -/
def mergeablePair : ParChild → ParChild → Bool
  | ParChild.text t1 a1, ParChild.text t2 a2 =>
    decide (a1 = a2 ∧ t1.props = t2.props)
  | _, _ => false

/-- No two adjacent children of the list could losslessly merge. -/
def okPar : List ParChild → Bool
  | a :: b :: rest => !mergeablePair a b && okPar (b :: rest)
  | _ => true

/-- Appending one element preserves merge-freedom exactly when the new
last pair is not mergeable. -/
theorem okPar_append (l : List ParChild) (c : ParChild) :
    okPar (l ++ [c])
      = (okPar l &&
          (match l.getLast? with
           | some p => !mergeablePair p c
           | Option.none => true)) := by
  induction l with
  | nil => rfl
  | cons a rest ih =>
    cases rest with
    | nil => simp [okPar]
    | cons b r2 =>
      rw [List.cons_append]
      show (!mergeablePair a b && okPar ((b :: r2) ++ [c])) = _
      rw [ih]
      simp [okPar, List.getLast?_cons_cons, Bool.and_assoc]

/-- A non-text right operand is never mergeable. -/
theorem mergeable_nonText_right (p c : ParChild) (h : c.isText = false) :
    mergeablePair p c = false := by
  cases p <;> cases c <;> simp_all [mergeablePair, ParChild.isText]

/-- Mergeability only depends on the text child's alignment and props,
not on its string. -/
theorem mergeablePair_congr (q : ParChild) (prev : TextNode) (pa : Align) (txt : String) :
    mergeablePair q (ParChild.text ⟨prev.text ++ txt, prev.props⟩ pa)
      = mergeablePair q (ParChild.text prev pa) := by
  cases q <;> rfl

/-- The inductive invariant of a paragraph builder driven through the
execution context: no adjacent mergeable text children, and the pending
soft item (a word space) is never a text child. -/
def parInv (b : ParBuilder) : Prop :=
  okPar b.children = true ∧
  (∀ c, b.last = Last.soft c → c.isText = false)

/-- The invariant holds for a fresh paragraph builder. -/
theorem parInv_new (st : State) : parInv (ParBuilder.new st) :=
  ⟨rfl, fun _ hc => Last.noConfusion hc⟩

/-- Flushing the pending soft item preserves merge-freedom. -/
theorem okPar_flush (b : ParBuilder) (h : parInv b) :
    okPar (b.children ++ (b.last.take_pending).1.toList) = true := by
  obtain ⟨h1, h2⟩ := h
  cases hl : b.last with
  | none => simpa [Last.take_pending] using h1
  | any => simpa [Last.take_pending] using h1
  | soft x =>
    show okPar (b.children ++ [x]) = true
    rw [okPar_append]
    cases hq : b.children.getLast? with
    | none => simpa using h1
    | some q => simp [h1, mergeable_nonText_right q x (h2 x hl)]

/-- The automaton always moves to `Any` after taking the pending item. -/
theorem Last.take_pending_snd (l : Last α) : (l.take_pending).2 = Last.any := by
  cases l <;> rfl

/-- `ParBuilder::push` of a non-text child preserves the invariant. -/
theorem parInv_push (b : ParBuilder) (c : ParChild) (hc : c.isText = false)
    (h : parInv b) : parInv (b.push c) := by
  refine ⟨?_, fun d hd => ?_⟩
  case refine_2 =>
    rw [show (b.push c).last = (b.last.take_pending).2 from rfl,
      Last.take_pending_snd] at hd
    exact Last.noConfusion hd
  show okPar (b.children ++ (b.last.take_pending).1.toList ++ [c]) = true
  rw [okPar_append]
  cases hq : (b.children ++ (b.last.take_pending).1.toList).getLast? with
  | none => simp [okPar_flush b h]
  | some q => simp [okPar_flush b h, mergeable_nonText_right q c hc]

/-- `ParBuilder::push_hard` of a non-text child preserves the invariant. -/
theorem parInv_push_hard (b : ParBuilder) (c : ParChild) (hc : c.isText = false)
    (h : parInv b) : parInv (b.push_hard c) := by
  obtain ⟨h1, h2⟩ := h
  refine ⟨?_, fun d hd => Last.noConfusion hd⟩
  show okPar (b.children ++ [c]) = true
  rw [okPar_append]
  cases hq : b.children.getLast? with
  | none => simp [h1]
  | some q => simp [h1, mergeable_nonText_right q c hc]

/-- `ParBuilder::push_soft` of a non-text child preserves the invariant. -/
theorem parInv_push_soft (b : ParBuilder) (c : ParChild) (hc : c.isText = false)
    (h : parInv b) : parInv (b.push_soft c) := by
  obtain ⟨h1, h2⟩ := h
  refine ⟨h1, fun d hd => ?_⟩
  rw [show (b.push_soft c).last = b.last.request_soft c from rfl] at hd
  cases hl : b.last with
  | none => rw [hl] at hd; exact Last.noConfusion hd
  | any =>
    rw [hl] at hd
    injection hd with he
    rw [← he]
    exact hc
  | soft x =>
    rw [hl] at hd
    injection hd with he
    rw [← he]
    exact h2 x hl

/-- `ParBuilder::push_text` preserves the invariant: it either merges
into a matching trailing text child (keeping the adjacency signature) or
appends a text child that cannot merge with its left neighbour. -/
theorem parInv_push_text (b : ParBuilder) (txt : String) (st : State)
    (h : parInv b) : parInv (b.push_text txt st) := by
  have h0 : okPar (b.children ++ (b.last.take_pending).1.toList) = true := okPar_flush b h
  have hlast : ∀ d, (b.push_text txt st).last = Last.soft d → d.isText = false := by
    intro d hd
    have he : (b.push_text txt st).last = (b.last.take_pending).2 := by
      unfold ParBuilder.push_text
      split
      · split <;> rfl
      · rfl
    rw [he, Last.take_pending_snd] at hd
    exact Last.noConfusion hd
  refine ⟨?_, hlast⟩
  unfold ParBuilder.push_text
  split
  case _ prev prevAlign heq =>
    split
    case isTrue hcond =>
      show okPar ((b.children ++ (b.last.take_pending).1.toList).dropLast ++
        [ParChild.text ⟨prev.text ++ txt, prev.props⟩ prevAlign]) = true
      have hne : b.children ++ (b.last.take_pending).1.toList ≠ [] := by
        intro hnil
        rw [hnil] at heq
        simp at heq
      have hsplit : (b.children ++ (b.last.take_pending).1.toList).dropLast ++
          [ParChild.text prev prevAlign] = b.children ++ (b.last.take_pending).1.toList := by
        have hg := List.getLast?_eq_getLast _ hne
        rw [heq] at hg
        injection hg with hg2
        rw [hg2]
        exact List.dropLast_append_getLast hne
      rw [okPar_append]
      have h0' : okPar ((b.children ++ (b.last.take_pending).1.toList).dropLast ++
          [ParChild.text prev prevAlign]) = true := by rw [hsplit]; exact h0
      rw [okPar_append] at h0'
      cases hq : (b.children ++ (b.last.take_pending).1.toList).dropLast.getLast? with
      | none => simp [hq] at h0' ⊢; exact h0' 
      | some q =>
        rw [hq] at h0'
        simp only [mergeablePair_congr]
        exact h0'
    case isFalse hcond =>
      show okPar ((b.children ++ (b.last.take_pending).1.toList) ++
        [ParChild.text ⟨txt, st.font.resolve_props⟩ st.aligns.cross]) = true
      rw [okPar_append, heq]
      have hm : mergeablePair (ParChild.text prev prevAlign)
          (ParChild.text ⟨txt, st.font.resolve_props⟩ st.aligns.cross) = false := by
        simp only [mergeablePair, TextNode.mk.injEq]
        exact decide_eq_false hcond
      simp [h0, hm]
  case _ hne =>
    show okPar ((b.children ++ (b.last.take_pending).1.toList) ++
      [ParChild.text ⟨txt, st.font.resolve_props⟩ st.aligns.cross]) = true
    rw [okPar_append]
    cases hq : (b.children ++ (b.last.take_pending).1.toList).getLast? with
    | none => simp [h0]
    | some q =>
      have hqt : mergeablePair q (ParChild.text ⟨txt, st.font.resolve_props⟩
          st.aligns.cross) = false := by
        cases q with
        | text t a => exact (hne t a hq).elim
        | spacing amt => rfl
        | linebreak => rfl
        | any n a => rfl
      simp [h0, hqt]

/-- The text-scanning loop preserves the paragraph invariant. -/
theorem push_text_loop_parInv :
    ∀ (ctx : ExecContext) (cs : List Char) (buf : String),
      parInv ctx.stack.par → parInv (ctx.push_text_loop cs buf).stack.par := by
  intro ctx cs buf
  induction ctx, cs, buf using ExecContext.push_text_loop.induct with
  | case1 ctx buf => exact fun h => parInv_push_text _ _ _ h
  | case2 ctx rest buf ih =>
    exact fun h => ih (parInv_push_hard _ _ rfl (parInv_push_text _ _ _ h))
  | case3 ctx c rest buf hne hnl ih =>
    intro h
    rw [ExecContext.push_text_loop.eq_3 ctx buf c rest hne, if_pos hnl]
    exact ih (parInv_push_hard _ _ rfl (parInv_push_text _ _ _ h))
  | case4 ctx c rest buf hne hnl ih =>
    intro h
    rw [ExecContext.push_text_loop.eq_3 ctx buf c rest hne, if_neg hnl]
    exact ih h

/-- Each operation preserves the paragraph invariant. -/
theorem execOp_parInv (op : Op) (ctx : ExecContext) (h : parInv ctx.stack.par) :
    parInv (execOp op ctx).stack.par := by
  cases op with
  | push n => exact parInv_push _ _ rfl h
  | push_word_space => exact parInv_push_soft _ _ rfl h
  | push_text s => exact push_text_loop_parInv ctx s.data "" h
  | push_spacing axis amount =>
    cases axis with
    | main =>
      have e : (execOp (Op.push_spacing GenAxis.main amount) ctx).stack.par
          = ParBuilder.new ctx.state := by
        show ((ctx.stack.parbreak ctx.state).push_hard (StackChild.spacing amount)).par
          = ParBuilder.new ctx.state
        rw [show ((ctx.stack.parbreak ctx.state).push_hard (StackChild.spacing amount)).par
            = (ctx.stack.parbreak ctx.state).par from rfl]
        exact stackbuilder_parbreak_par ctx.stack ctx.state
      rw [e]
      exact parInv_new ctx.state
    | cross => exact parInv_push_hard _ _ rfl h
  | linebreak => exact parInv_push_hard _ _ rfl h
  | parbreak =>
    have e : (execOp Op.parbreak ctx).stack.par = ParBuilder.new ctx.state := by
      show ((ctx.stack.parbreak ctx.state).push_soft
        (StackChild.spacing (ctx.state.par.spacing.resolve ctx.state.font.resolve_size))).par
          = ParBuilder.new ctx.state
      rw [push_soft_par]
      exact stackbuilder_parbreak_par ctx.stack ctx.state
    rw [e]
    exact parInv_new ctx.state
  | pagebreak k hd sp =>
    cases hp : ctx.page with
    | some pb =>
      rw [show (execOp (Op.pagebreak k hd sp) ctx).stack = StackBuilder.new ctx.state from by
        simp [execOp, ExecContext.pagebreak, hp]]
      exact parInv_new ctx.state
    | none =>
      rw [show (execOp (Op.pagebreak k hd sp) ctx).stack = ctx.stack from by
        simp [execOp, ExecContext.pagebreak, hp, ExecContext.diag]]
      exact h
  | set_monospace => exact h
  | group f => exact parInv_push _ _ rfl h

/-- A sequence of operations preserves the paragraph invariant. -/
theorem execOps_parInv (ops : List Op) (ctx : ExecContext) (h : parInv ctx.stack.par) :
    parInv (execOps ops ctx).stack.par := by
  induction ops generalizing ctx with
  | nil => exact h
  | cons op rest ih => exact ih _ (execOp_parInv op ctx h)

/-- C7: two consecutive text pushes with identical cross-axis alignment
and identical resolved properties merge into one text child carrying the
concatenated string; two text pushes separated by a hard line break stay
separate; and the open paragraph of a context driven by any operation
sequence never holds two adjacent mergeable text children (so neither
does any paragraph node it finalizes). -/
theorem par_text_merging (s s1 s2 : State) (A A2 B : String) (ops : List Op)
    (h1 : s1.aligns.cross = s2.aligns.cross)
    (h2 : s1.font.resolve_props = s2.font.resolve_props) :
    okPar ((execOps ops (ExecContext.new s)).stack.par.children) = true ∧
    (((ParBuilder.new s1).push_text A s1).push_text A2 s2).children
      = [ParChild.text ⟨A ++ A2, s1.font.resolve_props⟩ s1.aligns.cross] ∧
    ((((ParBuilder.new s).push_text A s).push_hard ParChild.linebreak).push_text B s).children
      = [ParChild.text ⟨A, s.font.resolve_props⟩ s.aligns.cross, ParChild.linebreak,
         ParChild.text ⟨B, s.font.resolve_props⟩ s.aligns.cross] := by
  refine ⟨(execOps_parInv ops (ExecContext.new s) (parInv_new s)).1, ?_, rfl⟩
  have e1 : (ParBuilder.new s1).push_text A s1
      = { aligns := s1.aligns, dir := s1.lang.dir,
          line_spacing := s1.par.leading.resolve s1.font.resolve_size,
          children := [ParChild.text ⟨A, s1.font.resolve_props⟩ s1.aligns.cross],
          last := Last.any } := rfl
  rw [e1]
  unfold ParBuilder.push_text
  split
  case _ prev pa heq =>
    have heq2 : some (ParChild.text ⟨A, s1.font.resolve_props⟩ s1.aligns.cross)
        = some (ParChild.text prev pa) := heq
    injection heq2 with he
    injection he with he1 he2
    subst he1
    subst he2
    rw [if_pos ⟨h1, h2⟩]
    simp [Last.take_pending, Option.toList]
  case _ hne =>
    exact (hne ⟨A, s1.font.resolve_props⟩ s1.aligns.cross rfl).elim

/-- Witness for C7 at a concrete input. -/
theorem par_text_merging_witness :
    okPar ((execOps [Op.push_text "uv"] (ExecContext.new sampleState)).stack.par.children)
      = true ∧
    (((ParBuilder.new sampleState).push_text "ab" sampleState).push_text "cd"
        sampleState).children
      = [ParChild.text ⟨"ab" ++ "cd", sampleState.font.resolve_props⟩
          sampleState.aligns.cross] ∧
    ((((ParBuilder.new sampleState).push_text "ab" sampleState).push_hard
        ParChild.linebreak).push_text "ef" sampleState).children
      = [ParChild.text ⟨"ab", sampleState.font.resolve_props⟩ sampleState.aligns.cross,
         ParChild.linebreak,
         ParChild.text ⟨"ef", sampleState.font.resolve_props⟩ sampleState.aligns.cross] :=
  par_text_merging sampleState sampleState sampleState "ab" "cd" "ef"
    [Op.push_text "uv"] rfl rfl

end Typst
